import Mathlib

/-!
# Enginio Qt client: a shallow embedding of `EnginioClient`

The definitions below follow `src/enginio_client/enginioclient.cpp`.  Heap
objects are represented by handles, `0`/null pointers by `none`, emitted Qt
signals by the list of signals a call returns, and the parts of the process
outside the client object (the static factory id counter, the signal
connections of the network managers) by the fields of `World`.

The C++ `int` counter `FactoryUnit::nextId` is embedded as an integer that
wraps around at 32 bits, as the increment does on two's-complement targets.
-/

namespace Enginio

/-! ## Qt value types -/

/-- A `QByteArray`: a sequence of bytes. -/
abbrev QByteArray := List Nat

/-- The Latin-1 bytes of one character of a `QString` (which stores UTF-16
code units): a code unit above 0xFF becomes `?`, and a character outside the
basic plane is two code units, hence two `?`. -/
def latin1OfChar (c : Char) : QByteArray :=
  if c.toNat < 0x100 then [c.toNat]
  else if c.toNat < 0x10000 then [63]
  else [63, 63]

/-- `QString::toLatin1`. -/
def toLatin1 (s : String) : QByteArray :=
  s.toList.flatMap latin1OfChar

/-- `QJsonValue`.  The numeric payload of a double plays no part in any
operation embedded here and is kept as an integer. -/
inductive QJsonValue where
  | null
  | bool (b : Bool)
  | double (n : Int)
  | string (s : String)
  | array (a : List QJsonValue)
  | object (o : List (String × QJsonValue))
  | undefined

/-- `QJsonObject`: the members of a JSON object, looked up by key. -/
abbrev QJsonObject := List (String × QJsonValue)

/-- `QJsonObject::empty`. -/
def QJsonObject.empty (o : QJsonObject) : Bool :=
  o.isEmpty

/-- `QJsonObject::operator[]` as an rvalue: the member stored under `key`;
when there is none, an undefined (const access) or null (access to a
temporary) value, which read alike through `toObject` and `toString`. -/
def QJsonObject.value (o : QJsonObject) (key : String) : QJsonValue :=
  match o.lookup key with
  | some v => v
  | none => QJsonValue.undefined

/-- `QJsonValue::toObject`: the object held, or an empty object. -/
def QJsonValue.toObject : QJsonValue → QJsonObject
  | QJsonValue.object o => o
  | _ => []

/-- `QJsonValue::toString`: the string held, or a null (empty) string. -/
def QJsonValue.toString : QJsonValue → String
  | QJsonValue.string s => s
  | _ => ""

/-- `QNetworkRequest`, reduced to its raw header list (name, value). -/
abbrev QNetworkRequest := List (String × QByteArray)

/-- `QNetworkRequest::setRawHeader`: any header of that name is replaced.
(Qt drops the header instead of storing it when the value is a null byte
array; the statements about headers read them through `rawHeader`, where an
absent header and an empty one read alike.) -/
def setRawHeader (r : QNetworkRequest) (name : String) (value : QByteArray) :
    QNetworkRequest :=
  r.filter (fun h => h.1 != name) ++ [(name, value)]

/-- The stored entry of a raw header, `none` when the request has none. -/
def rawHeaderEntry (r : QNetworkRequest) (name : String) : Option QByteArray :=
  r.lookup name

/-- `QNetworkRequest::rawHeader`: the value of the header, and an empty byte
array when the request has no such header. -/
def rawHeader (r : QNetworkRequest) (name : String) : QByteArray :=
  (rawHeaderEntry r name).getD []

/-! ## Objects and factories -/

/-- The objects a factory hands out (`EnginioAbstractObject *`): either the
generic `EnginioJsonObject`, or an instance of some user class. -/
inductive EnginioAbstractObject where
  | EnginioJsonObject (objectType : String) (id : String)
  | custom (className : String) (objectType : String) (id : String)
  deriving DecidableEq, Repr

/-- `EnginioAbstractObjectFactory`: its one virtual method
`createObjectForType(type, id)`, which returns an object or null. -/
abbrev EnginioAbstractObjectFactory :=
  String → String → Option EnginioAbstractObject

/-- Modelled from the spec: `EnginioJsonObjectFactory` is declared in
`enginiojsonobjectfactory.h`, which is not among the sources.  It constructs
a generic structured object tagged with `type` (and `id` if given) for every
request, so it never declines. -/
def EnginioJsonObjectFactory : EnginioAbstractObjectFactory :=
  fun type id => some (EnginioAbstractObject.EnginioJsonObject type id)

/-- `FactoryUnit`: a registered factory and the id it was registered under. -/
structure FactoryUnit where
  factory : EnginioAbstractObjectFactory
  id : Int

/-! ## The client -/

/-- A `QNetworkAccessManager *`: either the `k`-th manager the client has
allocated itself in `networkManager()`, or a manager allocated by the
caller. -/
inductive QNetworkAccessManager where
  | lazilyCreated (k : Nat)
  | external (k : Nat)
  deriving DecidableEq, Repr

/-- The two signals of a network manager the client connects to. -/
inductive ManagerSignal where
  | finished
  | sslErrors
  deriving DecidableEq, Repr

/-- The two receivers the client connects them to. -/
inductive Receiver where
  | ReplyFinishedFunctor
  | ignoreSslErrors
  deriving DecidableEq, Repr

/-- One signal connection made by `connect`. -/
structure Connection where
  sender : QNetworkAccessManager
  signal : ManagerSignal
  receiver : Receiver
  deriving DecidableEq, Repr

/-- The signals of `EnginioClient` emitted by the code embedded here. -/
inductive Signal where
  | backendIdChanged (backendId : String)
  | backendSecretChanged (backendSecret : String)
  | clientInitialized
  | apiUrlChanged
  | other (name : String)
  deriving DecidableEq, Repr

/-- `EnginioClientPrivate`: the members used by `enginioclient.cpp`. -/
structure EnginioClientPrivate where
  _identity : Option Nat
  m_backendId : String
  m_backendSecret : String
  m_apiUrl : String
  _request : QNetworkRequest
  m_networkManager : Option QNetworkAccessManager
  m_deleteNetworkManager : Bool
  m_factories : List FactoryUnit

/-- `EnginioReply`: the reply object wrapping one `QNetworkReply`. -/
structure EnginioReply where
  nreply : Nat
  deriving DecidableEq, Repr

/-- The client together with what it shares with the rest of the process:
the static counter `FactoryUnit::nextId`, the signal connections of network
managers to this client, the managers destroyed so far, how many managers
the client has allocated, and the reply objects it has allocated. -/
structure World where
  nextId : Int
  d : EnginioClientPrivate
  connections : List Connection
  destroyed : List QNetworkAccessManager
  allocated : Nat
  replies : List EnginioReply

/-- `EnginioClient::Area`, an enumeration declared in `enginioclient.h`. -/
abbrev Area := Nat

/-- The members of `EnginioClientPrivate` that are only declared in
`enginioclient_p.h`, which is not among the sources: they are parameters of
the embedding. -/
structure PrivateMembers where
  sessionToken : EnginioClientPrivate → QByteArray
  setSessionToken : World → QByteArray → World × List Signal
  setIdentity : World → Option Nat → World × List Signal
  create : World → QJsonObject → Area → World × Nat
  update : World → QJsonObject → Area → World × Nat
  remove : World → QJsonObject → Area → World × Nat
  uploadFile : World → QJsonObject → String → World × Nat

/-- Modelled from the spec: `EnginioClientPrivate::isInitialized` is declared
in `enginioclient_p.h`, which is not among the sources.  The session is
initialized iff both backendId and backendSecret are non-empty. -/
def isInitialized (d : EnginioClientPrivate) : Bool :=
  d.m_backendId != "" && d.m_backendSecret != ""

/-! ### The factory registry -/

/-- The value a C++ `int` holds after an arithmetic result `x`: `x` reduced
to the 32-bit two's-complement range from -2147483648 to 2147483647. -/
def wrapInt32 (x : Int) : Int :=
  (x + 2147483648) % 4294967296 - 2147483648

/-- `EnginioClientPrivate::addFactory`.  `FactoryUnit::nextId++` hands out
the current value of the `int` counter and increments it. -/
def addFactory (w : World) (factory : EnginioAbstractObjectFactory) : World × Int :=
  let unit : FactoryUnit := { factory := factory, id := w.nextId }
  ({ w with
      nextId := wrapInt32 (w.nextId + 1)
      d := { w.d with m_factories := unit :: w.d.m_factories } },
   unit.id)

/-- The loop of `removeFactory` from index `i` on; `rest` holds the entries
`m_factories.at(i)`, `m_factories.at(i+1)`, ... still to be visited. -/
def removeFactoryLoop (m_factories : List FactoryUnit) (factoryId : Int) :
    Nat → List FactoryUnit → List FactoryUnit
  | _, [] => m_factories
  | i, unit :: rest =>
    if unit.id = factoryId then m_factories.eraseIdx i
    else removeFactoryLoop m_factories factoryId (i + 1) rest

/-- `EnginioClientPrivate::removeFactory`. -/
def removeFactory (w : World) (factoryId : Int) : World :=
  { w with
    d := { w.d with
      m_factories := removeFactoryLoop w.d.m_factories factoryId 0 w.d.m_factories } }

/-- `EnginioClient::registerObjectFactory`. -/
def registerObjectFactory (w : World) (factory : EnginioAbstractObjectFactory) :
    World × Int :=
  addFactory w factory

/-- `EnginioClient::unregisterObjectFactory`. -/
def unregisterObjectFactory (w : World) (factoryId : Int) : World :=
  removeFactory w factoryId

/-- The loop of `createObject` over the entries still to be consulted. -/
def createObjectLoop (type id : String) :
    List FactoryUnit → Option EnginioAbstractObject
  | [] => none
  | unit :: rest =>
    match unit.factory type id with
    | some obj => some obj
    | none => createObjectLoop type id rest

/-- `EnginioClient::createObject`. -/
def createObject (w : World) (type : String) (id : String) :
    Option EnginioAbstractObject :=
  createObjectLoop type id w.d.m_factories

/-- The constructor `EnginioClientPrivate::EnginioClientPrivate`, run in a
process whose static counter `FactoryUnit::nextId` holds `nextId`. -/
def construct (nextId : Int) : World :=
  let w : World :=
    { nextId := nextId
      d :=
        { _identity := none
          m_backendId := ""
          m_backendSecret := ""
          m_apiUrl := "https://api.engin.io"
          _request := []
          m_networkManager := none
          m_deleteNetworkManager := true
          m_factories := [] }
      connections := []
      destroyed := []
      allocated := 0
      replies := [] }
  let w := (addFactory w EnginioJsonObjectFactory).1
  { w with
    d := { w.d with
      _request := setRawHeader w.d._request "Content-Type" (toLatin1 "application/json") } }

/-- A call that touches the registry or the static id counter: the two
public calls on this client, and an `addFactory` of another client of the
same process (its constructor or its `registerObjectFactory`), which shares
`FactoryUnit::nextId`. -/
inductive RegistryCall where
  | registerObjectFactory (factory : EnginioAbstractObjectFactory)
  | unregisterObjectFactory (factoryId : Int)
  | otherClientAddFactory

/-- One registry call: the new state and the id the call returned, if it
was a `registerObjectFactory` on this client. -/
def registryStep (w : World) : RegistryCall → World × Option Int
  | RegistryCall.registerObjectFactory factory =>
    let r := registerObjectFactory w factory
    (r.1, some r.2)
  | RegistryCall.unregisterObjectFactory factoryId =>
    (unregisterObjectFactory w factoryId, none)
  | RegistryCall.otherClientAddFactory =>
    ({ w with nextId := wrapInt32 (w.nextId + 1) }, none)

/-- A sequence of registry calls: the final state and the ids returned by
the `registerObjectFactory` calls, in call order. -/
def registryRun (w : World) : List RegistryCall → World × List Int
  | [] => (w, [])
  | c :: cs =>
    let r := registryStep w c
    let rest := registryRun r.1 cs
    (rest.1, r.2.toList ++ rest.2)

/-! ### The session setters -/

/-- `EnginioClient::setBackendId`: the new state and the signals emitted. -/
def setBackendId (w : World) (backendId : String) : World × List Signal :=
  if w.d.m_backendId ≠ backendId then
    let d1 := { w.d with m_backendId := backendId }
    let d2 := { d1 with
      _request := setRawHeader d1._request "Enginio-Backend-Id" (toLatin1 d1.m_backendId) }
    ({ w with d := d2 },
     Signal.backendIdChanged backendId ::
       (if isInitialized d2 then [Signal.clientInitialized] else []))
  else (w, [])

/-- `EnginioClient::setBackendSecret`: the new state and the signals emitted. -/
def setBackendSecret (w : World) (backendSecret : String) : World × List Signal :=
  if w.d.m_backendSecret ≠ backendSecret then
    let d1 := { w.d with m_backendSecret := backendSecret }
    let d2 := { d1 with
      _request :=
        setRawHeader d1._request "Enginio-Backend-Secret" (toLatin1 d1.m_backendSecret) }
    ({ w with d := d2 },
     Signal.backendSecretChanged backendSecret ::
       (if isInitialized d2 then [Signal.clientInitialized] else []))
  else (w, [])

/-- `EnginioClient::setApiUrl`. -/
def setApiUrl (w : World) (apiUrl : String) : World × List Signal :=
  if w.d.m_apiUrl ≠ apiUrl then
    ({ w with d := { w.d with m_apiUrl := apiUrl } }, [Signal.apiUrlChanged])
  else (w, [])

/-- `EnginioClient::setSessionToken`. -/
def setSessionToken (p : PrivateMembers) (w : World) (sessionToken : QByteArray) :
    World × List Signal :=
  if p.sessionToken w.d ≠ sessionToken then p.setSessionToken w sessionToken
  else (w, [])

/-- `EnginioClient::setIdentity`. -/
def setIdentity (p : PrivateMembers) (w : World) (identity : Option Nat) :
    World × List Signal :=
  if w.d._identity = identity then (w, [])
  else p.setIdentity w identity

/-- A call of one of the two backend setters. -/
inductive SessionCall where
  | setBackendId (backendId : String)
  | setBackendSecret (backendSecret : String)
  deriving DecidableEq, Repr

/-- One setter call. -/
def sessionStep (w : World) : SessionCall → World × List Signal
  | SessionCall.setBackendId backendId => setBackendId w backendId
  | SessionCall.setBackendSecret backendSecret => setBackendSecret w backendSecret

/-- A sequence of setter calls: the final state and what each call emitted. -/
def sessionRun (w : World) : List SessionCall → World × List (List Signal)
  | [] => (w, [])
  | c :: cs =>
    let r := sessionStep w c
    let rest := sessionRun r.1 cs
    (rest.1, r.2 :: rest.2)

/-- Whether the argument of a setter call differs from the value held. -/
def SessionCall.changes (w : World) : SessionCall → Bool
  | SessionCall.setBackendId backendId => w.d.m_backendId != backendId
  | SessionCall.setBackendSecret backendSecret => w.d.m_backendSecret != backendSecret

/-- The backend id a sequence of setter calls ends with, starting from
`current`: the argument of its last `setBackendId`, and `current` when it has
none. -/
def latestBackendId (current : String) (calls : List SessionCall) : String :=
  calls.foldl (fun acc c =>
    match c with
    | SessionCall.setBackendId backendId => backendId
    | SessionCall.setBackendSecret _ => acc) current

/-- The backend secret a sequence of setter calls ends with, starting from
`current`. -/
def latestBackendSecret (current : String) (calls : List SessionCall) : String :=
  calls.foldl (fun acc c =>
    match c with
    | SessionCall.setBackendId _ => acc
    | SessionCall.setBackendSecret backendSecret => backendSecret) current

/-- The header invariant of the request template: each backend header holds
the Latin-1 bytes of its field, or is absent while the field is empty. -/
def HeaderInv (d : EnginioClientPrivate) : Prop :=
  (rawHeaderEntry d._request "Enginio-Backend-Id" = some (toLatin1 d.m_backendId) ∨
    (rawHeaderEntry d._request "Enginio-Backend-Id" = none ∧ d.m_backendId = "")) ∧
  (rawHeaderEntry d._request "Enginio-Backend-Secret" = some (toLatin1 d.m_backendSecret) ∨
    (rawHeaderEntry d._request "Enginio-Backend-Secret" = none ∧ d.m_backendSecret = ""))

/-! ### Requests -/

/-- `EnginioClient::create`: the new state and the reply returned (null as
`none`).  `nreply->setParent(ereply)` only hands the network reply over to
the new reply object. -/
def create (p : PrivateMembers) (w : World) (object : QJsonObject) (area : Area) :
    World × Option EnginioReply :=
  if object.empty then (w, none)
  else
    let r := p.create w object area
    let ereply : EnginioReply := { nreply := r.2 }
    ({ r.1 with replies := ereply :: r.1.replies }, some ereply)

/-- `EnginioClient::update`. -/
def update (p : PrivateMembers) (w : World) (object : QJsonObject) (area : Area) :
    World × Option EnginioReply :=
  if object.empty then (w, none)
  else
    let r := p.update w object area
    let ereply : EnginioReply := { nreply := r.2 }
    ({ r.1 with replies := ereply :: r.1.replies }, some ereply)

/-- `EnginioClient::remove`. -/
def remove (p : PrivateMembers) (w : World) (object : QJsonObject) (area : Area) :
    World × Option EnginioReply :=
  if object.empty then (w, none)
  else
    let r := p.remove w object area
    let ereply : EnginioReply := { nreply := r.2 }
    ({ r.1 with replies := ereply :: r.1.replies }, some ereply)

/-- `EnginioClient::uploadFile`. -/
def uploadFile (p : PrivateMembers) (w : World) (associatedObject : QJsonObject)
    (file : String) : World × Option EnginioReply :=
  if ((associatedObject.value "object").toObject.value "objectType").toString = "" then
    (w, none)
  else
    let r := p.uploadFile w associatedObject file
    let ereply : EnginioReply := { nreply := r.2 }
    ({ r.1 with replies := ereply :: r.1.replies }, some ereply)

/-- The condition in the words of the spec: the payload declares a non-empty
type field, that is, its "object" member is an object whose "objectType"
member is a non-empty string. -/
def declaresObjectType (associatedObject : QJsonObject) : Bool :=
  match associatedObject.lookup "object" with
  | some (QJsonValue.object inner) =>
    match inner.lookup "objectType" with
    | some (QJsonValue.string t) => t != ""
    | _ => false
  | _ => false

/-- A sample instantiation of the members taken as parameters, used to
evaluate the embedding at concrete inputs: the setters store nothing and emit
one signal, and every request hands out the network reply numbered by the
count of reply objects allocated so far. -/
def samplePrivateMembers : PrivateMembers where
  sessionToken := fun _ => []
  setSessionToken := fun w _ => (w, [Signal.other "sessionTokenChanged"])
  setIdentity := fun w _ => (w, [Signal.other "identityChanged"])
  create := fun w _ _ => (w, w.replies.length)
  update := fun w _ _ => (w, w.replies.length)
  remove := fun w _ _ => (w, w.replies.length)
  uploadFile := fun w _ _ => (w, w.replies.length)

/-! ### The network manager -/

/-- `QObject::connect`: one more connection from the sender's signal to the
receiver; with a null sender no connection is made. -/
def connect (w : World) (sender : Option QNetworkAccessManager)
    (signal : ManagerSignal) (receiver : Receiver) : World :=
  match sender with
  | none => w
  | some m =>
    { w with connections := w.connections ++ [{ sender := m, signal := signal, receiver := receiver }] }

/-- The C++ `delete` of a network manager: its connections go with it, and a
`QPointer` that tracks it becomes null. -/
def deleteManager (w : World) (m : QNetworkAccessManager) : World :=
  { w with
    connections := w.connections.filter (fun c => c.sender ≠ m)
    destroyed := m :: w.destroyed
    d := { w.d with
      m_networkManager :=
        if w.d.m_networkManager = some m then none else w.d.m_networkManager } }

/-- `EnginioClient::networkManager`. -/
def networkManager (w : World) : World × Option QNetworkAccessManager :=
  match w.d.m_networkManager with
  | some m => (w, some m)
  | none =>
    let m := QNetworkAccessManager.lazilyCreated w.allocated
    let w1 : World :=
      { w with allocated := w.allocated + 1, d := { w.d with m_networkManager := some m } }
    let w2 := connect w1 w1.d.m_networkManager ManagerSignal.finished
      Receiver.ReplyFinishedFunctor
    let w3 : World := { w2 with d := { w2.d with m_deleteNetworkManager := true } }
    let w4 :=
      if w3.d.m_apiUrl = "https://api.staging.engin.io" then
        connect w3 w3.d.m_networkManager ManagerSignal.sslErrors Receiver.ignoreSslErrors
      else w3
    (w4, w4.d.m_networkManager)

/-- `EnginioClient::setNetworkManager`. -/
def setNetworkManager (w : World) (networkManager : Option QNetworkAccessManager) : World :=
  let w1 :=
    match w.d.m_deleteNetworkManager, w.d.m_networkManager with
    | true, some m => deleteManager w m
    | _, _ => w
  let w2 : World := { w1 with d := { w1.d with m_networkManager := networkManager } }
  let w3 := connect w2 w2.d.m_networkManager ManagerSignal.finished
    Receiver.ReplyFinishedFunctor
  { w3 with d := { w3.d with m_deleteNetworkManager := false } }

/-- A call that touches the network manager. -/
inductive NetworkCall where
  | networkManager
  | setNetworkManager (networkManager : Option QNetworkAccessManager)
  deriving DecidableEq, Repr

/-- One network-manager call. -/
def networkStep (w : World) : NetworkCall → World
  | NetworkCall.networkManager => (networkManager w).1
  | NetworkCall.setNetworkManager m => setNetworkManager w m

/-- A sequence of network-manager calls. -/
def networkRun (w : World) : List NetworkCall → World
  | [] => w
  | c :: cs => networkRun (networkStep w c) cs

/-- How many times the completion handler of this client is attached to the
`finished` signal of the manager `m`: so many times each request completed
by `m` is routed to the client. -/
def finishedHandlers (w : World) (m : QNetworkAccessManager) : Nat :=
  w.connections.count
    { sender := m, signal := ManagerSignal.finished, receiver := Receiver.ReplyFinishedFunctor }

/-- `EnginioClientPrivate::~EnginioClientPrivate`, the loop that takes the
first factory unit off the list and deletes it until the list is empty. -/
def destroyFactories : List FactoryUnit → List FactoryUnit
  | [] => []
  | _ :: rest => destroyFactories rest

/-- `EnginioClientPrivate::~EnginioClientPrivate`: the world the destroyed
client leaves behind.  `delete` of a null pointer does nothing. -/
def destruct (w : World) : World :=
  let w1 :=
    match w.d.m_deleteNetworkManager, w.d.m_networkManager with
    | true, some m => deleteManager w m
    | _, _ => w
  { w1 with d := { w1.d with m_factories := destroyFactories w1.d.m_factories } }

/-- Whether a manager was allocated by the client itself. -/
def QNetworkAccessManager.isLazilyCreated : QNetworkAccessManager → Bool
  | QNetworkAccessManager.lazilyCreated _ => true
  | QNetworkAccessManager.external _ => false

/-- Whether a call hands the client a manager that the client allocated
itself (a pointer obtained from `networkManager()`). -/
def NetworkCall.suppliesOwnManager : NetworkCall → Bool
  | NetworkCall.setNetworkManager (some m) => m.isLazilyCreated
  | _ => false

/-- The ownership invariant: the flag `m_deleteNetworkManager` is set exactly
when the current manager was allocated by the client; only managers the
client allocated have been destroyed; and every manager the client allocated
is the current one or has been destroyed. -/
def OwnershipInv (w : World) : Prop :=
  (∀ m, w.d.m_networkManager = some m →
    (w.d.m_deleteNetworkManager = true ↔ m.isLazilyCreated = true)) ∧
  (∀ m ∈ w.destroyed, m.isLazilyCreated = true) ∧
  (∀ k, k < w.allocated →
    w.d.m_networkManager = some (QNetworkAccessManager.lazilyCreated k) ∨
      QNetworkAccessManager.lazilyCreated k ∈ w.destroyed)

/-! ### Sequences of client operations -/

/-- `EnginioClient::query`, with `d->query` (declared in `enginioclient_p.h`,
which is not among the sources) as the parameter `dQuery`. -/
def query (dQuery : World → QJsonObject → Area → World × Nat) (w : World)
    (query : QJsonObject) (area : Area) : World × EnginioReply :=
  let r := dQuery w query area
  let ereply : EnginioReply := { nreply := r.2 }
  ({ r.1 with replies := ereply :: r.1.replies }, ereply)

/-- A call of one of the public operations of `EnginioClient` defined in
`enginioclient.cpp`. -/
inductive ClientCall where
  | setBackendId (backendId : String)
  | setBackendSecret (backendSecret : String)
  | setApiUrl (apiUrl : String)
  | networkManager
  | setNetworkManager (networkManager : Option QNetworkAccessManager)
  | setSessionToken (sessionToken : QByteArray)
  | registerObjectFactory (factory : EnginioAbstractObjectFactory)
  | unregisterObjectFactory (factoryId : Int)
  | createObject (type : String) (id : String)
  | query (query : QJsonObject) (area : Area)
  | create (object : QJsonObject) (area : Area)
  | update (object : QJsonObject) (area : Area)
  | remove (object : QJsonObject) (area : Area)
  | setIdentity (identity : Option Nat)
  | uploadFile (associatedObject : QJsonObject) (file : String)

/-- The state after one client operation. -/
def clientStep (p : PrivateMembers) (dQuery : World → QJsonObject → Area → World × Nat)
    (w : World) : ClientCall → World
  | ClientCall.setBackendId backendId => (setBackendId w backendId).1
  | ClientCall.setBackendSecret backendSecret => (setBackendSecret w backendSecret).1
  | ClientCall.setApiUrl apiUrl => (setApiUrl w apiUrl).1
  | ClientCall.networkManager => (networkManager w).1
  | ClientCall.setNetworkManager m => setNetworkManager w m
  | ClientCall.setSessionToken sessionToken => (setSessionToken p w sessionToken).1
  | ClientCall.registerObjectFactory factory => (registerObjectFactory w factory).1
  | ClientCall.unregisterObjectFactory factoryId => unregisterObjectFactory w factoryId
  | ClientCall.createObject _ _ => w
  | ClientCall.query q area => (query dQuery w q area).1
  | ClientCall.create object area => (create p w object area).1
  | ClientCall.update object area => (update p w object area).1
  | ClientCall.remove object area => (remove p w object area).1
  | ClientCall.setIdentity identity => (setIdentity p w identity).1
  | ClientCall.uploadFile associatedObject file => (uploadFile p w associatedObject file).1

/-- The state after a sequence of client operations. -/
def clientRun (p : PrivateMembers) (dQuery : World → QJsonObject → Area → World × Nat)
    (w : World) : List ClientCall → World
  | [] => w
  | c :: cs => clientRun p dQuery (clientStep p dQuery w c) cs

/-- Whether the handler `ignoreSslErrors` is attached to any manager. -/
def sslErrorsIgnored (w : World) : Bool :=
  w.connections.any (fun c => decide (c.receiver = Receiver.ignoreSslErrors))

/-- Whether a call sets the API URL to a value other than the production
URL the constructor installs. -/
def ClientCall.setsOtherApiUrl : ClientCall → Bool
  | ClientCall.setApiUrl apiUrl => apiUrl != "https://api.engin.io"
  | _ => false

/-- A state change that leaves the API URL as it is and attaches the handler
`ignoreSslErrors` only where `networkManager()` does: while the API URL is
the staging URL. -/
def KeepsSslPolicy (w w1 : World) : Prop :=
  w1.d.m_apiUrl = w.d.m_apiUrl ∧
  (sslErrorsIgnored w1 = true →
    sslErrorsIgnored w = true ∨ w.d.m_apiUrl = "https://api.staging.engin.io")

/-- What the statements about the SSL handler assume of the private members
taken as parameters: each of them keeps to `KeepsSslPolicy`. -/
def PrivateMembersKeepSslPolicy (p : PrivateMembers)
    (dQuery : World → QJsonObject → Area → World × Nat) : Prop :=
  (∀ w t, KeepsSslPolicy w (p.setSessionToken w t).1) ∧
  (∀ w i, KeepsSslPolicy w (p.setIdentity w i).1) ∧
  (∀ w o a, KeepsSslPolicy w (dQuery w o a).1) ∧
  (∀ w o a, KeepsSslPolicy w (p.create w o a).1) ∧
  (∀ w o a, KeepsSslPolicy w (p.update w o a).1) ∧
  (∀ w o a, KeepsSslPolicy w (p.remove w o a).1) ∧
  (∀ w o f, KeepsSslPolicy w (p.uploadFile w o f).1)

/-- A sample `d->query`, used to evaluate the embedding at concrete inputs
like `samplePrivateMembers`. -/
def sampleQuery : World → QJsonObject → Area → World × Nat :=
  fun w _ _ => (w, w.replies.length)

/-- The history invariant of the SSL policy: the API URL is the staging URL,
or the handler is attached, only if an earlier call set the staging URL. -/
def SslPolicyInv (w : World) (history : List ClientCall) : Prop :=
  (w.d.m_apiUrl = "https://api.staging.engin.io" →
    ∃ pre post, history = pre ++ ClientCall.setApiUrl "https://api.staging.engin.io" :: post) ∧
  (sslErrorsIgnored w = true →
    ∃ pre post, history = pre ++ ClientCall.setApiUrl "https://api.staging.engin.io" :: post)

/-- A registry entry together with the time it was registered at: 0 for the
built-in factory the constructor registers, `k` for the entry registered by
the `k`-th call of a sequence.  This is bookkeeping for the words "most
recently registered"; the client does not store it. -/
structure Registration where
  unit : FactoryUnit
  registeredAt : Nat

/-- The registrations after one call made at time `clock` in the state `w`:
`registerObjectFactory` adds the entry it creates, stamped with `clock`, and
`unregisterObjectFactory` drops the first registration with the id. -/
def registrationStep (clock : Nat) (w : World) (rs : List Registration) :
    RegistryCall → List Registration
  | RegistryCall.registerObjectFactory factory =>
    { unit := { factory := factory, id := (registerObjectFactory w factory).2 }
      registeredAt := clock } :: rs
  | RegistryCall.unregisterObjectFactory factoryId =>
    rs.eraseP (fun r => decide (r.unit.id = factoryId))
  | RegistryCall.otherClientAddFactory => rs

/-- The registrations after a sequence of calls that starts at time `clock`
in the state `w`. -/
def registrationRun (clock : Nat) (w : World) (rs : List Registration) :
    List RegistryCall → List Registration
  | [] => rs
  | c :: cs =>
    registrationRun (clock + 1) (registryStep w c).1 (registrationStep clock w rs c) cs

/-- The still-registered entries, with their registration times, of a client
constructed at counter value `n0` after a sequence of calls. -/
def registrations (n0 : Int) (calls : List RegistryCall) : List Registration :=
  registrationRun 1 (construct n0)
    [{ unit := { factory := EnginioJsonObjectFactory, id := n0 }, registeredAt := 0 }] calls

/-- The bookkeeping invariant: the registrations are the entries of the
registry, in the same order, and their times strictly decrease from front to
back and lie before `clock`. -/
def RegistrationInv (clock : Nat) (w : World) (rs : List Registration) : Prop :=
  rs.map Registration.unit = w.d.m_factories ∧
    (rs.map Registration.registeredAt).Pairwise (fun a b => a > b) ∧
    ∀ r ∈ rs, r.registeredAt < clock

/-! ## Theorems: the factory registry -/

/-- The loop of `removeFactory`, started at index `pre.length` after the
entries `pre` (none of which matched) were visited, removes the first entry
of `rest` whose id matches and nothing else. -/
theorem removeFactoryLoop_append (factoryId : Int) (rest pre : List FactoryUnit) :
    removeFactoryLoop (pre ++ rest) factoryId pre.length rest
      = pre ++ rest.eraseP (fun u => decide (u.id = factoryId)) := by
  induction rest generalizing pre with
  | nil => simp [removeFactoryLoop]
  | cons u rest ih =>
    by_cases hu : u.id = factoryId
    · simp [removeFactoryLoop, hu, List.eraseIdx_append_of_length_le]
    · have h := ih (pre ++ [u])
      simp only [List.append_assoc, List.singleton_append, List.length_append,
        List.length_singleton] at h
      simp [removeFactoryLoop, hu, h, List.eraseP_cons]

/-- The registry after `removeFactory`: the first entry with the id is gone. -/
theorem removeFactory_factories (w : World) (factoryId : Int) :
    (removeFactory w factoryId).d.m_factories
      = w.d.m_factories.eraseP (fun u => decide (u.id = factoryId)) := by
  have h := removeFactoryLoop_append factoryId w.d.m_factories []
  simpa [removeFactory] using h

theorem RegistrationInv_step (clock : Nat) (w : World) (rs : List Registration)
    (c : RegistryCall) (h : RegistrationInv clock w rs) :
    RegistrationInv (clock + 1) (registryStep w c).1 (registrationStep clock w rs c) := by
  obtain ⟨h1, h2, h3⟩ := h
  cases c with
  | registerObjectFactory factory =>
    refine ⟨?_, ?_, ?_⟩
    · simp [registrationStep, registryStep, registerObjectFactory, addFactory, h1]
    · simp only [registrationStep, List.map_cons, List.pairwise_cons]
      refine ⟨?_, h2⟩
      intro b hb
      obtain ⟨r, hr, rfl⟩ := List.mem_map.1 hb
      exact h3 r hr
    · intro r hr
      simp only [registrationStep, List.mem_cons] at hr
      rcases hr with rfl | hr
      · exact Nat.lt_succ_self _
      · exact Nat.lt_succ_of_lt (h3 r hr)
  | unregisterObjectFactory factoryId =>
    have hs : (rs.eraseP (fun r => decide (r.unit.id = factoryId))).Sublist rs :=
      List.eraseP_sublist _
    refine ⟨?_, h2.sublist (hs.map _), fun r hr => Nat.lt_succ_of_lt (h3 r (hs.subset hr))⟩
    simp only [registrationStep, registryStep, unregisterObjectFactory]
    rw [removeFactory_factories, ← h1, List.eraseP_map]
    rfl
  | otherClientAddFactory =>
    exact ⟨h1, h2, fun r hr => Nat.lt_succ_of_lt (h3 r hr)⟩

theorem RegistrationInv_run (calls : List RegistryCall) (clock : Nat) (w : World)
    (rs : List Registration) (h : RegistrationInv clock w rs) :
    RegistrationInv (clock + calls.length) (registryRun w calls).1
      (registrationRun clock w rs calls) := by
  induction calls generalizing clock w rs with
  | nil => exact h
  | cons c cs ih =>
    have := ih (clock + 1) _ _ (RegistrationInv_step clock w rs c h)
    simp only [List.length_cons, registryRun, registrationRun]
    rw [show clock + (cs.length + 1) = clock + 1 + cs.length by omega]
    exact this

theorem RegistrationInv_construct (n0 : Int) :
    RegistrationInv 1 (construct n0)
      [{ unit := { factory := EnginioJsonObjectFactory, id := n0 }, registeredAt := 0 }] := by
  refine ⟨rfl, by simp, ?_⟩
  intro r hr
  simp only [List.mem_singleton] at hr
  subst hr
  exact Nat.zero_lt_one

/-- The loop of `createObject` over the entries of a list of registrations
returns the construction of the first registration that does not decline. -/
theorem createObjectLoop_registrations (type id : String) (obj : EnginioAbstractObject)
    (rs : List Registration) :
    createObjectLoop type id (rs.map Registration.unit) = some obj ↔
      ∃ pre r post, rs = pre ++ r :: post ∧
        (∀ v ∈ pre, v.unit.factory type id = none) ∧ r.unit.factory type id = some obj := by
  induction rs with
  | nil => simp [createObjectLoop]
  | cons a rs ih =>
    cases ha : a.unit.factory type id with
    | some o =>
      simp only [List.map_cons, createObjectLoop, ha, Option.some.injEq]
      constructor
      · rintro rfl
        exact ⟨[], a, rs, rfl, by simp, ha⟩
      · rintro ⟨pre, r, post, hl, hpre, hr⟩
        cases pre with
        | nil =>
          simp only [List.nil_append, List.cons.injEq] at hl
          rw [← hl.1, ha] at hr
          exact Option.some.inj hr
        | cons q pre =>
          simp only [List.cons_append, List.cons.injEq] at hl
          have := hpre q (by simp)
          rw [← hl.1, ha] at this
          cases this
    | none =>
      simp only [List.map_cons, createObjectLoop, ha, ih]
      constructor
      · rintro ⟨pre, r, post, hl, hpre, hr⟩
        refine ⟨a :: pre, r, post, by simp [hl], ?_, hr⟩
        intro v hv
        rcases List.mem_cons.1 hv with rfl | hv
        · exact ha
        · exact hpre v hv
      · rintro ⟨pre, r, post, hl, hpre, hr⟩
        cases pre with
        | nil =>
          simp only [List.nil_append, List.cons.injEq] at hl
          rw [← hl.1, ha] at hr
          cases hr
        | cons q pre =>
          simp only [List.cons_append, List.cons.injEq] at hl
          exact ⟨pre, r, post, hl.2, fun v hv => hpre v (by simp [hv]), hr⟩

/-- What the loop of `createObject` returns: the construction of the first
entry that does not decline. -/
theorem createObjectLoop_eq_some (type id : String) (obj : EnginioAbstractObject)
    (l : List FactoryUnit) :
    createObjectLoop type id l = some obj ↔
      ∃ pre u post, l = pre ++ u :: post ∧ (∀ v ∈ pre, v.factory type id = none) ∧
        u.factory type id = some obj := by
  induction l with
  | nil => simp [createObjectLoop]
  | cons a l ih =>
    cases ha : a.factory type id with
    | some o =>
      simp only [createObjectLoop, ha, Option.some.injEq]
      constructor
      · rintro rfl
        exact ⟨[], a, l, rfl, by simp, ha⟩
      · rintro ⟨pre, u, post, hl, hpre, hu⟩
        cases pre with
        | nil =>
          simp only [List.nil_append, List.cons.injEq] at hl
          rw [← hl.1, ha] at hu
          exact Option.some.inj hu
        | cons p pre =>
          simp only [List.cons_append, List.cons.injEq] at hl
          have := hpre p (by simp)
          rw [← hl.1, ha] at this
          cases this
    | none =>
      simp only [createObjectLoop, ha, ih]
      constructor
      · rintro ⟨pre, u, post, hl, hpre, hu⟩
        refine ⟨a :: pre, u, post, by simp [hl], ?_, hu⟩
        intro v hv
        rcases List.mem_cons.1 hv with rfl | hv
        · exact ha
        · exact hpre v hv
      · rintro ⟨pre, u, post, hl, hpre, hu⟩
        cases pre with
        | nil =>
          simp only [List.nil_append, List.cons.injEq] at hl
          rw [← hl.1, ha] at hu
          cases hu
        | cons p pre =>
          simp only [List.cons_append, List.cons.injEq] at hl
          exact ⟨pre, u, post, hl.2, fun v hv => hpre v (by simp [hv]), hu⟩

theorem createObjectLoop_ne_none (type id : String) (l : List FactoryUnit)
    (u : FactoryUnit) (hu : u ∈ l) (h : u.factory type id ≠ none) :
    createObjectLoop type id l ≠ none := by
  induction l with
  | nil => simp at hu
  | cons a l ih =>
    cases ha : a.factory type id with
    | some o => simp [createObjectLoop, ha]
    | none =>
      simp only [createObjectLoop, ha]
      rcases List.mem_cons.1 hu with rfl | hu
      · exact absurd ha h
      · exact ih hu

/-- As long as no call unregisters the id of the built-in factory, that
factory stays registered. -/
theorem builtin_kept (n0 : Int) (calls : List RegistryCall)
    (h : RegistryCall.unregisterObjectFactory n0 ∉ calls) (w : World)
    (hw : ∃ u ∈ w.d.m_factories, u.id = n0 ∧ u.factory = EnginioJsonObjectFactory) :
    ∃ u ∈ (registryRun w calls).1.d.m_factories,
      u.id = n0 ∧ u.factory = EnginioJsonObjectFactory := by
  induction calls generalizing w with
  | nil => exact hw
  | cons c cs ih =>
    have hc : RegistryCall.unregisterObjectFactory n0 ≠ c := fun e => h (by simp [e])
    have hcs : RegistryCall.unregisterObjectFactory n0 ∉ cs := fun e => h (by simp [e])
    refine ih hcs _ ?_
    obtain ⟨u, hu, hid, hf⟩ := hw
    cases c with
    | registerObjectFactory factory =>
      exact ⟨u, by simp [registryStep, registerObjectFactory, addFactory, hu], hid, hf⟩
    | unregisterObjectFactory factoryId =>
      have hne : factoryId ≠ n0 := fun e => hc (by rw [e])
      refine ⟨u, ?_, hid, hf⟩
      simp only [registryStep, unregisterObjectFactory]
      rw [removeFactory_factories, List.mem_eraseP_of_neg]
      · exact hu
      · simp [hid, Ne.symm hne]
    | otherClientAddFactory => exact ⟨u, hu, hid, hf⟩

/-- When no call of the sequence unregisters the id held by the built-in
factory, `createObject` returns an object for every type and id. -/
theorem createObject_ne_none_of_builtin_kept (n0 : Int) (calls : List RegistryCall)
    (h : RegistryCall.unregisterObjectFactory n0 ∉ calls) (type id : String) :
    createObject (registryRun (construct n0) calls).1 type id ≠ none := by
  obtain ⟨u, hu, _, hf⟩ := builtin_kept n0 calls h (construct n0)
    ⟨⟨EnginioJsonObjectFactory, n0⟩, by simp [construct, addFactory], rfl, rfl⟩
  exact createObjectLoop_ne_none type id _ u hu (by simp [hf, EnginioJsonObjectFactory])

/-- C1 (defect): the built-in factory sits in the same list as the registered
ones and `removeFactory` does not protect it.  In a process whose counter
holds `n0`, a fresh client gives it the id `n0`, and after
`unregisterObjectFactory(n0)` the registry is empty and `createObject`
returns null for every type and id. -/
theorem createObject_null_after_unregistering_builtin (n0 : Int) (type id : String) :
    (registryRun (construct n0) [RegistryCall.unregisterObjectFactory n0]).1.d.m_factories.length = 0 ∧
    createObject (registryRun (construct n0) [RegistryCall.unregisterObjectFactory n0]).1
      type id = none := by
  simp [registryRun, registryStep, unregisterObjectFactory, removeFactory,
    removeFactoryLoop, construct, addFactory, createObject, createObjectLoop]

/-- C2: `createObject` consults the registry newest-first.  After every
sequence of calls the entries of the registry are the still-registered
factories in the order of their registration, latest first, and
`createObject` returns an object exactly when it is the construction of the
most recently registered one among those that do not decline; right after
registering a factory that accepts the type, its object is returned. -/
theorem createObject_newest_first (n0 : Int) (calls : List RegistryCall)
    (type id : String) :
    ((registrations n0 calls).map Registration.unit
        = (registryRun (construct n0) calls).1.d.m_factories ∧
      ((registrations n0 calls).map Registration.registeredAt).Pairwise
        (fun a b => a > b)) ∧
    (∀ obj, createObject (registryRun (construct n0) calls).1 type id = some obj ↔
      ∃ r ∈ registrations n0 calls,
        r.unit.factory type id = some obj ∧
        ∀ r1 ∈ registrations n0 calls,
          r.registeredAt < r1.registeredAt → r1.unit.factory type id = none) ∧
    (∀ F obj, F type id = some obj →
      createObject (registerObjectFactory (registryRun (construct n0) calls).1 F).1
        type id = some obj) := by
  obtain ⟨hunits, htimes, _⟩ :=
    RegistrationInv_run calls 1 (construct n0) _ (RegistrationInv_construct n0)
  change (registrations n0 calls).map Registration.unit = _ at hunits
  change ((registrations n0 calls).map Registration.registeredAt).Pairwise _ at htimes
  refine ⟨⟨hunits, htimes⟩, ?_, ?_⟩
  · intro obj
    rw [createObject, ← hunits, createObjectLoop_registrations]
    rw [List.pairwise_map] at htimes
    generalize registrations n0 calls = rs at htimes ⊢
    constructor
    · rintro ⟨pre, r, post, hl, hpre, hr⟩
      refine ⟨r, by simp [hl], hr, ?_⟩
      intro r1 hr1 hlt
      rw [hl, List.pairwise_append] at htimes
      obtain ⟨_, h2, _⟩ := htimes
      rw [hl] at hr1
      rcases List.mem_append.1 hr1 with hr1 | hr1
      · exact hpre r1 hr1
      · rcases List.mem_cons.1 hr1 with rfl | hr1
        · omega
        · have := (List.pairwise_cons.1 h2).1 r1 hr1
          omega
    · rintro ⟨r, hr, hobj, hnewer⟩
      obtain ⟨pre, post, hl⟩ := List.append_of_mem hr
      refine ⟨pre, r, post, hl, ?_, hobj⟩
      intro v hv
      refine hnewer v (by simp [hl, hv]) ?_
      rw [hl, List.pairwise_append] at htimes
      exact htimes.2.2 v hv r (by simp)
  · intro F obj hF
    simp [createObject, registerObjectFactory, addFactory, createObjectLoop, hF]

/-- Witness for C2. -/
theorem createObject_newest_first_witness :
    createObject (registerObjectFactory (registryRun (construct 0) []).1
        (fun type id => if type = "objects.Book" then
          some (EnginioAbstractObject.custom "Book" type id) else none)).1
      "objects.Book" "" = some (EnginioAbstractObject.custom "Book" "objects.Book" "") :=
  (createObject_newest_first 0 [] "objects.Book" "").2.2 _ _ (by simp)

/-- C4: `unregisterObjectFactory(id)` leaves the client unchanged when no
entry has the id; otherwise it removes the first entry with the id and keeps
every other entry, in the same order, and nothing else changes. -/
theorem unregisterObjectFactory_removes_first_match (w : World) (factoryId : Int) :
    ((∀ u ∈ w.d.m_factories, u.id ≠ factoryId) →
      unregisterObjectFactory w factoryId = w) ∧
    (∀ pre u post, w.d.m_factories = pre ++ u :: post →
      (∀ v ∈ pre, v.id ≠ factoryId) → u.id = factoryId →
      unregisterObjectFactory w factoryId
        = { w with d := { w.d with m_factories := pre ++ post } }) := by
  have hrem : unregisterObjectFactory w factoryId
      = { w with d := { w.d with m_factories :=
            w.d.m_factories.eraseP (fun u => decide (u.id = factoryId)) } } := by
    have h := removeFactory_factories w factoryId
    simp only [unregisterObjectFactory, removeFactory] at h ⊢
    rw [h]
  refine ⟨?_, ?_⟩
  · intro h
    rw [hrem, List.eraseP_of_forall_not]
    intro a ha
    simpa using h a ha
  · intro pre u post hl hpre hu
    rw [hrem, hl, List.eraseP_append_right, List.eraseP_cons]
    · simp [hu]
    · intro a ha
      simpa using hpre a ha

/-- Witness for C4: removing id 5 from the ids [7, 5, 3, 5] leaves [7, 3, 5],
and removing the unknown id 4 leaves the four entries. -/
theorem unregisterObjectFactory_removes_first_match_witness :
    ((unregisterObjectFactory
        { construct 0 with d := { (construct 0).d with m_factories :=
            [⟨EnginioJsonObjectFactory, 7⟩, ⟨EnginioJsonObjectFactory, 5⟩,
             ⟨EnginioJsonObjectFactory, 3⟩, ⟨EnginioJsonObjectFactory, 5⟩] } }
        5).d.m_factories.map FactoryUnit.id = [7, 3, 5]) ∧
    ((unregisterObjectFactory
        { construct 0 with d := { (construct 0).d with m_factories :=
            [⟨EnginioJsonObjectFactory, 7⟩, ⟨EnginioJsonObjectFactory, 5⟩,
             ⟨EnginioJsonObjectFactory, 3⟩, ⟨EnginioJsonObjectFactory, 5⟩] } }
        4).d.m_factories.map FactoryUnit.id = [7, 5, 3, 5]) := by
  constructor
  · rw [(unregisterObjectFactory_removes_first_match _ 5).2
      [⟨EnginioJsonObjectFactory, 7⟩] ⟨EnginioJsonObjectFactory, 5⟩
      [⟨EnginioJsonObjectFactory, 3⟩, ⟨EnginioJsonObjectFactory, 5⟩] rfl (by simp) rfl]
    rfl
  · rw [(unregisterObjectFactory_removes_first_match _ 4).1 (by simp)]
    rfl

/-! ## Theorems: the session -/

theorem rawHeaderEntry_setRawHeader_self (r : QNetworkRequest) (name : String)
    (value : QByteArray) : rawHeaderEntry (setRawHeader r name value) name = some value := by
  simp only [rawHeaderEntry, setRawHeader, List.lookup_append]
  have h : (r.filter (fun h => h.1 != name)).lookup name = none := by
    induction r with
    | nil => rfl
    | cons a r ih =>
      obtain ⟨k, b⟩ := a
      by_cases ha : k = name
      · simp only [List.filter_cons, ha, bne_self_eq_false, Bool.false_eq_true, ite_false]
        exact ih
      · have hne : (name == k) = false := by simpa using fun e => ha e.symm
        have hk : (k != name) = true := by simpa using ha
        simp only [List.filter_cons, hk, ite_true, List.lookup_cons, hne]
        exact ih
  simp [h]

theorem rawHeaderEntry_setRawHeader_other (r : QNetworkRequest) (name other : String)
    (value : QByteArray) (hne : other ≠ name) :
    rawHeaderEntry (setRawHeader r name value) other = rawHeaderEntry r other := by
  simp only [rawHeaderEntry, setRawHeader, List.lookup_append]
  have hno : (other == name) = false := by simpa using hne
  have h : (r.filter (fun h => h.1 != name)).lookup other = r.lookup other := by
    induction r with
    | nil => rfl
    | cons a r ih =>
      obtain ⟨k, b⟩ := a
      by_cases ha : k = name
      · have hoa : (other == k) = false := by rw [ha]; exact hno
        simp only [List.filter_cons, ha, bne_self_eq_false, Bool.false_eq_true, ite_false,
          List.lookup_cons, hno]
        exact ih
      · have hk : (k != name) = true := by simpa using ha
        simp only [List.filter_cons, hk, ite_true, List.lookup_cons, ih]
  rw [h]
  cases r.lookup other <;> simp [List.lookup_cons, hno]

theorem toLatin1_empty : toLatin1 "" = [] := rfl

theorem HeaderInv_construct (n0 : Int) : HeaderInv (construct n0).d := by
  refine ⟨Or.inr ⟨?_, rfl⟩, Or.inr ⟨?_, rfl⟩⟩ <;>
    simp [construct, addFactory, rawHeaderEntry, setRawHeader, List.lookup_cons]

theorem HeaderInv_step (w : World) (c : SessionCall) (h : HeaderInv w.d) :
    HeaderInv (sessionStep w c).1.d := by
  obtain ⟨h1, h2⟩ := h
  cases c with
  | setBackendId backendId =>
    simp only [sessionStep, setBackendId]
    split
    · refine ⟨Or.inl (rawHeaderEntry_setRawHeader_self _ _ _), ?_⟩
      simp only [rawHeaderEntry_setRawHeader_other _ _ _ _
        (show "Enginio-Backend-Secret" ≠ "Enginio-Backend-Id" by decide)]
      exact h2
    · exact ⟨h1, h2⟩
  | setBackendSecret backendSecret =>
    simp only [sessionStep, setBackendSecret]
    split
    · refine ⟨?_, Or.inl (rawHeaderEntry_setRawHeader_self _ _ _)⟩
      simp only [rawHeaderEntry_setRawHeader_other _ _ _ _
        (show "Enginio-Backend-Id" ≠ "Enginio-Backend-Secret" by decide)]
      exact h1
    · exact ⟨h1, h2⟩

theorem sessionStep_fields (w : World) (c : SessionCall) :
    (sessionStep w c).1.d.m_backendId = latestBackendId w.d.m_backendId [c] ∧
    (sessionStep w c).1.d.m_backendSecret = latestBackendSecret w.d.m_backendSecret [c] := by
  cases c with
  | setBackendId backendId =>
    simp only [sessionStep, setBackendId, latestBackendId, latestBackendSecret, List.foldl]
    split
    · exact ⟨rfl, rfl⟩
    · rename_i h
      exact ⟨not_not.1 h, rfl⟩
  | setBackendSecret backendSecret =>
    simp only [sessionStep, setBackendSecret, latestBackendId, latestBackendSecret, List.foldl]
    split
    · exact ⟨rfl, rfl⟩
    · rename_i h
      exact ⟨rfl, not_not.1 h⟩

theorem sessionRun_inv (calls : List SessionCall) (w : World) (h : HeaderInv w.d) :
    HeaderInv (sessionRun w calls).1.d ∧
    (sessionRun w calls).1.d.m_backendId = latestBackendId w.d.m_backendId calls ∧
    (sessionRun w calls).1.d.m_backendSecret
      = latestBackendSecret w.d.m_backendSecret calls := by
  induction calls generalizing w with
  | nil => exact ⟨h, rfl, rfl⟩
  | cons c cs ih =>
    obtain ⟨i1, i2, i3⟩ := ih (sessionStep w c).1 (HeaderInv_step w c h)
    obtain ⟨f1, f2⟩ := sessionStep_fields w c
    refine ⟨i1, ?_, ?_⟩
    · simp only [sessionRun, i2, f1, latestBackendId, List.foldl]
    · simp only [sessionRun, i3, f2, latestBackendSecret, List.foldl]

/-- C5, as stated, fails: once id "a" and secret "s" are set the session is
initialized, and `setBackendId("b")` on that initialized session emits
`clientInitialized` again. -/
theorem clientInitialized_emitted_again :
    isInitialized (sessionRun (construct 0)
      [SessionCall.setBackendId "a", SessionCall.setBackendSecret "s"]).1.d = true ∧
    (sessionStep (sessionRun (construct 0)
      [SessionCall.setBackendId "a", SessionCall.setBackendSecret "s"]).1
      (SessionCall.setBackendId "b")).2
      = [Signal.backendIdChanged "b", Signal.clientInitialized] := by
  decide

/-- C5, amended: a call of `setBackendId` or `setBackendSecret` emits
`clientInitialized` exactly when it changes its field and the session is
initialized after the call, and at most once; so a call that moves the
session from not-initialized to initialized emits it exactly once, and a call
that does not change its field emits nothing and changes nothing. -/
theorem clientInitialized_iff_changed_and_initialized (w : World) (c : SessionCall) :
    (Signal.clientInitialized ∈ (sessionStep w c).2 ↔
      (c.changes w = true ∧ isInitialized (sessionStep w c).1.d = true)) ∧
    (sessionStep w c).2.count Signal.clientInitialized ≤ 1 ∧
    (isInitialized w.d = false → isInitialized (sessionStep w c).1.d = true →
      (sessionStep w c).2.count Signal.clientInitialized = 1) ∧
    (c.changes w = false → sessionStep w c = (w, [])) := by
  cases c with
  | setBackendId backendId =>
    by_cases hc : w.d.m_backendId = backendId
    · simp only [sessionStep, setBackendId, SessionCall.changes, hc]
      refine ⟨by simp, by simp, ?_, by simp⟩
      intro h1 h2
      simp only [ne_eq, not_true_eq_false, ite_false] at h2
      rw [h1] at h2
      cases h2
    · simp only [sessionStep, setBackendId, SessionCall.changes, ne_eq, hc,
        not_false_eq_true, ite_true]
      cases hi : isInitialized { w.d with
          m_backendId := backendId
          _request := setRawHeader w.d._request "Enginio-Backend-Id" (toLatin1 backendId) }
        <;> simp [hc, List.count_cons]
  | setBackendSecret backendSecret =>
    by_cases hc : w.d.m_backendSecret = backendSecret
    · simp only [sessionStep, setBackendSecret, SessionCall.changes, hc]
      refine ⟨by simp, by simp, ?_, by simp⟩
      intro h1 h2
      simp only [ne_eq, not_true_eq_false, ite_false] at h2
      rw [h1] at h2
      cases h2
    · simp only [sessionStep, setBackendSecret, SessionCall.changes, ne_eq, hc,
        not_false_eq_true, ite_true]
      cases hi : isInitialized { w.d with
          m_backendSecret := backendSecret
          _request :=
            setRawHeader w.d._request "Enginio-Backend-Secret" (toLatin1 backendSecret) }
        <;> simp [hc, List.count_cons]

/-- Witness for C5: with the id set, setting the secret moves the session
into the initialized state and emits `clientInitialized` once. -/
theorem clientInitialized_iff_changed_and_initialized_witness :
    (sessionStep (sessionRun (construct 0) [SessionCall.setBackendId "a"]).1
      (SessionCall.setBackendSecret "s")).2.count Signal.clientInitialized = 1 :=
  (clientInitialized_iff_changed_and_initialized
    (sessionRun (construct 0) [SessionCall.setBackendId "a"]).1
    (SessionCall.setBackendSecret "s")).2.2.1 (by decide) (by decide)

/-- C6: each of the five setters, called with the value the client already
holds, leaves the whole state unchanged and emits no signal. -/
theorem setters_same_value_noop (p : PrivateMembers) (w : World) :
    setBackendId w w.d.m_backendId = (w, []) ∧
    setBackendSecret w w.d.m_backendSecret = (w, []) ∧
    setSessionToken p w (p.sessionToken w.d) = (w, []) ∧
    setIdentity p w w.d._identity = (w, []) ∧
    setApiUrl w w.d.m_apiUrl = (w, []) := by
  simp [setBackendId, setBackendSecret, setSessionToken, setIdentity, setApiUrl]

/-- C7: after every sequence of `setBackendId` / `setBackendSecret` calls on
a fresh client, the fields hold the latest id and secret, and the value of
each of the two backend headers of the request template, as `rawHeader`
reads it, is the Latin-1 encoding of the latest id, respectively secret; a
non-empty latest value has its header present with exactly these bytes; so
two sequences that end with the same id and secret yield the same two
headers. -/
theorem backend_headers_from_latest (n0 n1 : Int) (calls other : List SessionCall) :
    ((sessionRun (construct n0) calls).1.d.m_backendId = latestBackendId "" calls ∧
      (sessionRun (construct n0) calls).1.d.m_backendSecret
        = latestBackendSecret "" calls) ∧
    (rawHeader (sessionRun (construct n0) calls).1.d._request "Enginio-Backend-Id"
        = toLatin1 (latestBackendId "" calls) ∧
      rawHeader (sessionRun (construct n0) calls).1.d._request "Enginio-Backend-Secret"
        = toLatin1 (latestBackendSecret "" calls)) ∧
    (latestBackendId "" calls ≠ "" →
      rawHeaderEntry (sessionRun (construct n0) calls).1.d._request "Enginio-Backend-Id"
        = some (toLatin1 (latestBackendId "" calls))) ∧
    (latestBackendSecret "" calls ≠ "" →
      rawHeaderEntry (sessionRun (construct n0) calls).1.d._request "Enginio-Backend-Secret"
        = some (toLatin1 (latestBackendSecret "" calls))) ∧
    (latestBackendId "" calls = latestBackendId "" other →
      latestBackendSecret "" calls = latestBackendSecret "" other →
      rawHeader (sessionRun (construct n0) calls).1.d._request "Enginio-Backend-Id"
        = rawHeader (sessionRun (construct n1) other).1.d._request "Enginio-Backend-Id" ∧
      rawHeader (sessionRun (construct n0) calls).1.d._request "Enginio-Backend-Secret"
        = rawHeader (sessionRun (construct n1) other).1.d._request
            "Enginio-Backend-Secret") := by
  have values : ∀ (n : Int) (cs : List SessionCall),
      rawHeader (sessionRun (construct n) cs).1.d._request "Enginio-Backend-Id"
        = toLatin1 (latestBackendId "" cs) ∧
      rawHeader (sessionRun (construct n) cs).1.d._request "Enginio-Backend-Secret"
        = toLatin1 (latestBackendSecret "" cs) := by
    intro n cs
    obtain ⟨⟨h1, h2⟩, e1, e2⟩ := sessionRun_inv cs (construct n) (HeaderInv_construct n)
    have c1 : (construct n).d.m_backendId = "" := rfl
    have c2 : (construct n).d.m_backendSecret = "" := rfl
    rw [c1] at e1
    rw [c2] at e2
    rw [e1] at h1
    rw [e2] at h2
    constructor
    · rcases h1 with h | ⟨h, he⟩
      · simp [rawHeader, h]
      · simp [rawHeader, h, he, toLatin1_empty]
    · rcases h2 with h | ⟨h, he⟩
      · simp [rawHeader, h]
      · simp [rawHeader, h, he, toLatin1_empty]
  obtain ⟨⟨h1, h2⟩, e1, e2⟩ := sessionRun_inv calls (construct n0) (HeaderInv_construct n0)
  have c1 : (construct n0).d.m_backendId = "" := rfl
  have c2 : (construct n0).d.m_backendSecret = "" := rfl
  rw [c1] at e1
  rw [c2] at e2
  refine ⟨⟨e1, e2⟩, values n0 calls, ?_, ?_, ?_⟩
  · intro hne
    rw [e1] at h1
    rcases h1 with h | ⟨_, he⟩
    · exact h
    · exact absurd he hne
  · intro hne
    rw [e2] at h2
    rcases h2 with h | ⟨_, he⟩
    · exact h
    · exact absurd he hne
  · intro hid hsec
    rw [(values n0 calls).1, (values n0 calls).2, (values n1 other).1, (values n1 other).2,
      hid, hsec]
    exact ⟨rfl, rfl⟩

/-- Witness for C7: after setting id "a", secret "s", id "b", the backend-id
header is present and holds the byte of "b"; and it reads the same as after
setting secret "s" and id "b" only. -/
theorem backend_headers_from_latest_witness :
    rawHeaderEntry (sessionRun (construct 0)
      [SessionCall.setBackendId "a", SessionCall.setBackendSecret "s",
       SessionCall.setBackendId "b"]).1.d._request "Enginio-Backend-Id"
      = some (toLatin1 (latestBackendId ""
          [SessionCall.setBackendId "a", SessionCall.setBackendSecret "s",
           SessionCall.setBackendId "b"])) ∧
    (rawHeader (sessionRun (construct 0)
        [SessionCall.setBackendId "a", SessionCall.setBackendSecret "s",
         SessionCall.setBackendId "b"]).1.d._request "Enginio-Backend-Id"
      = rawHeader (sessionRun (construct 5)
        [SessionCall.setBackendSecret "s", SessionCall.setBackendId "b"]).1.d._request
        "Enginio-Backend-Id" ∧
     rawHeader (sessionRun (construct 0)
        [SessionCall.setBackendId "a", SessionCall.setBackendSecret "s",
         SessionCall.setBackendId "b"]).1.d._request "Enginio-Backend-Secret"
      = rawHeader (sessionRun (construct 5)
        [SessionCall.setBackendSecret "s", SessionCall.setBackendId "b"]).1.d._request
        "Enginio-Backend-Secret") :=
  ⟨(backend_headers_from_latest 0 5
      [SessionCall.setBackendId "a", SessionCall.setBackendSecret "s",
       SessionCall.setBackendId "b"]
      [SessionCall.setBackendSecret "s", SessionCall.setBackendId "b"]).2.2.1 (by decide),
   (backend_headers_from_latest 0 5
      [SessionCall.setBackendId "a", SessionCall.setBackendSecret "s",
       SessionCall.setBackendId "b"]
      [SessionCall.setBackendSecret "s", SessionCall.setBackendId "b"]).2.2.2.2
      (by decide) (by decide)⟩

/-! ## Theorems: requests -/

/-- C8: with an empty payload `create`, `update` and `remove` return null
and leave the whole state as it was (no reply object is allocated and the
private request builder is not run); with a non-empty payload each returns a
new reply object that wraps the network reply of the private request builder
run on this payload and area. -/
theorem mutations_reject_empty_payload (p : PrivateMembers) (w : World)
    (object : QJsonObject) (area : Area) :
    (object.empty = true →
      create p w object area = (w, none) ∧
      update p w object area = (w, none) ∧
      remove p w object area = (w, none)) ∧
    (object.empty = false →
      ((create p w object area).2 = some { nreply := (p.create w object area).2 } ∧
        (create p w object area).1.replies
          = { nreply := (p.create w object area).2 } :: (p.create w object area).1.replies) ∧
      ((update p w object area).2 = some { nreply := (p.update w object area).2 } ∧
        (update p w object area).1.replies
          = { nreply := (p.update w object area).2 } :: (p.update w object area).1.replies) ∧
      ((remove p w object area).2 = some { nreply := (p.remove w object area).2 } ∧
        (remove p w object area).1.replies
          = { nreply := (p.remove w object area).2 } :: (p.remove w object area).1.replies)) := by
  constructor
  · intro h
    simp [create, update, remove, h]
  · intro h
    simp [create, update, remove, h]

/-- Witness for C8: the empty payload, and a payload with one member. -/
theorem mutations_reject_empty_payload_witness :
    (create samplePrivateMembers (construct 0) [] 0 = (construct 0, none) ∧
      update samplePrivateMembers (construct 0) [] 0 = (construct 0, none) ∧
      remove samplePrivateMembers (construct 0) [] 0 = (construct 0, none)) ∧
    (create samplePrivateMembers (construct 0) [("title", QJsonValue.string "X")] 0).2
      = some { nreply := 0 } :=
  ⟨(mutations_reject_empty_payload samplePrivateMembers (construct 0) [] 0).1 rfl,
   ((mutations_reject_empty_payload samplePrivateMembers (construct 0)
      [("title", QJsonValue.string "X")] 0).2 rfl).1.1⟩

/-- The test of `uploadFile` on the payload agrees with the condition in the
words of the spec. -/
theorem objectType_empty_iff (associatedObject : QJsonObject) :
    ((associatedObject.value "object").toObject.value "objectType").toString = "" ↔
      declaresObjectType associatedObject = false := by
  unfold declaresObjectType QJsonObject.value
  cases h1 : List.lookup "object" associatedObject with
  | none => simp [QJsonValue.toObject, QJsonValue.toString]
  | some v =>
    cases v with
    | object inner =>
      simp only [QJsonValue.toObject]
      cases h2 : List.lookup "objectType" inner with
      | none => simp [QJsonValue.toString]
      | some t => cases t <;> simp [QJsonValue.toString]
    | _ => simp [QJsonValue.toObject, QJsonValue.toString]

/-- C9: `uploadFile` returns null exactly when the payload does not declare
a non-empty type field, and then the whole state is as it was (no reply
object, the private request builder is not run); the empty payload is such a
payload; otherwise the new reply object wraps the network reply of the
private request builder. -/
theorem uploadFile_null_iff_no_object_type (p : PrivateMembers) (w : World)
    (associatedObject : QJsonObject) (file : String) :
    ((uploadFile p w associatedObject file).2 = none ↔
      declaresObjectType associatedObject = false) ∧
    (declaresObjectType associatedObject = false →
      uploadFile p w associatedObject file = (w, none)) ∧
    (declaresObjectType associatedObject = true →
      (uploadFile p w associatedObject file).2
        = some { nreply := (p.uploadFile w associatedObject file).2 } ∧
      (uploadFile p w associatedObject file).1.replies
        = { nreply := (p.uploadFile w associatedObject file).2 }
          :: (p.uploadFile w associatedObject file).1.replies) ∧
    declaresObjectType [] = false := by
  have key := objectType_empty_iff associatedObject
  have hnil : declaresObjectType [] = false := rfl
  by_cases hd : declaresObjectType associatedObject = false
  · have he := key.2 hd
    simp [uploadFile, he, hd, hnil]
  · have he : ¬ ((associatedObject.value "object").toObject.value "objectType").toString = "" :=
      fun e => hd (key.1 e)
    simp only [Bool.not_eq_false] at hd
    simp [uploadFile, he, hd, hnil]

/-- Witness for C9: a payload whose object has type "objects.Book", and a
payload whose "objectType" member is a number. -/
theorem uploadFile_null_iff_no_object_type_witness :
    (uploadFile samplePrivateMembers (construct 0)
      [("object", QJsonValue.object [("objectType", QJsonValue.string "objects.Book")])]
      "file:///tmp/cover.png").2 = some { nreply := 0 } ∧
    uploadFile samplePrivateMembers (construct 0)
      [("object", QJsonValue.object [("objectType", QJsonValue.double 3)])]
      "file:///tmp/cover.png" = (construct 0, none) :=
  ⟨((uploadFile_null_iff_no_object_type samplePrivateMembers (construct 0)
      [("object", QJsonValue.object [("objectType", QJsonValue.string "objects.Book")])]
      "file:///tmp/cover.png").2.2.1 (by decide)).1,
   (uploadFile_null_iff_no_object_type samplePrivateMembers (construct 0)
      [("object", QJsonValue.object [("objectType", QJsonValue.double 3)])]
      "file:///tmp/cover.png").2.1 (by decide)⟩

/-! ## Theorems: the network manager -/

/-- C10 (defect): `setNetworkManager` connects the completion handler anew
on every call and never disconnects it.  Binding the same caller-owned
manager twice attaches the handler twice; replacing one caller-owned manager
by another leaves the handler attached to the replaced one.  Only a manager
the client created itself loses the handler on replacement, because it is
destroyed. -/
theorem finished_handler_not_exactly_once :
    ((networkRun (construct 0)
        [NetworkCall.setNetworkManager (some (QNetworkAccessManager.external 1)),
         NetworkCall.setNetworkManager (some (QNetworkAccessManager.external 1))]
      ).d.m_networkManager = some (QNetworkAccessManager.external 1) ∧
      finishedHandlers (networkRun (construct 0)
        [NetworkCall.setNetworkManager (some (QNetworkAccessManager.external 1)),
         NetworkCall.setNetworkManager (some (QNetworkAccessManager.external 1))])
        (QNetworkAccessManager.external 1) = 2) ∧
    ((networkRun (construct 0)
        [NetworkCall.setNetworkManager (some (QNetworkAccessManager.external 1)),
         NetworkCall.setNetworkManager (some (QNetworkAccessManager.external 2))]
      ).d.m_networkManager = some (QNetworkAccessManager.external 2) ∧
      finishedHandlers (networkRun (construct 0)
        [NetworkCall.setNetworkManager (some (QNetworkAccessManager.external 1)),
         NetworkCall.setNetworkManager (some (QNetworkAccessManager.external 2))])
        (QNetworkAccessManager.external 1) = 1) ∧
    finishedHandlers (networkRun (construct 0)
        [NetworkCall.networkManager,
         NetworkCall.setNetworkManager (some (QNetworkAccessManager.external 1))])
        (QNetworkAccessManager.lazilyCreated 0) = 0 := by
  decide

/-! ## Theorems: the SSL policy -/

theorem KeepsSslPolicy_of_eq (w w1 : World) (hurl : w1.d.m_apiUrl = w.d.m_apiUrl)
    (hconn : w1.connections = w.connections) : KeepsSslPolicy w w1 := by
  refine ⟨hurl, ?_⟩
  intro h
  left
  simpa [sslErrorsIgnored, hconn] using h

theorem KeepsSslPolicy_replies (w w1 : World) (replies : List EnginioReply)
    (h : KeepsSslPolicy w w1) : KeepsSslPolicy w { w1 with replies := replies } := h

theorem networkManager_keeps (w : World) : KeepsSslPolicy w (networkManager w).1 := by
  unfold networkManager
  cases hm : w.d.m_networkManager with
  | some m => exact KeepsSslPolicy_of_eq _ _ rfl rfl
  | none =>
    by_cases hs : w.d.m_apiUrl = "https://api.staging.engin.io"
    · refine ⟨?_, fun _ => Or.inr hs⟩
      simp [connect, hs]
    · refine ⟨?_, ?_⟩
      · simp [connect, hs]
      · intro h
        left
        simpa [sslErrorsIgnored, connect, hs] using h

theorem setNetworkManager_keeps (w : World) (m : Option QNetworkAccessManager) :
    KeepsSslPolicy w (setNetworkManager w m) := by
  have hsub : ∀ c ∈ (setNetworkManager w m).connections,
      c ∈ w.connections ∨ c.receiver = Receiver.ReplyFinishedFunctor := by
    intro c hc
    unfold setNetworkManager at hc
    cases hf : w.d.m_deleteNetworkManager <;> cases hcur : w.d.m_networkManager <;>
      cases m <;> simp [hf, hcur, connect, deleteManager] at hc <;> aesop
  refine ⟨?_, ?_⟩
  · unfold setNetworkManager
    cases hf : w.d.m_deleteNetworkManager <;> cases hcur : w.d.m_networkManager <;>
      cases m <;> simp [connect, deleteManager]
  · intro h
    left
    simp only [sslErrorsIgnored, List.any_eq_true, decide_eq_true_eq] at h ⊢
    obtain ⟨c, hc, hr⟩ := h
    rcases hsub c hc with hc | hc
    · exact ⟨c, hc, hr⟩
    · rw [hr] at hc
      cases hc

/-- Every client operation other than `setApiUrl` keeps to the SSL policy,
provided the private members do. -/
theorem clientStep_keeps (p : PrivateMembers)
    (dQuery : World → QJsonObject → Area → World × Nat)
    (hp : PrivateMembersKeepSslPolicy p dQuery) (w : World) (c : ClientCall)
    (hc : ∀ u, c ≠ ClientCall.setApiUrl u) :
    KeepsSslPolicy w (clientStep p dQuery w c) := by
  obtain ⟨hTok, hId, hQ, hC, hU, hR, hF⟩ := hp
  cases c with
  | setBackendId v =>
    simp only [clientStep, setBackendId]
    split <;> exact KeepsSslPolicy_of_eq _ _ rfl rfl
  | setBackendSecret v =>
    simp only [clientStep, setBackendSecret]
    split <;> exact KeepsSslPolicy_of_eq _ _ rfl rfl
  | setApiUrl u => exact absurd rfl (hc u)
  | networkManager => exact networkManager_keeps w
  | setNetworkManager m => exact setNetworkManager_keeps w m
  | setSessionToken t =>
    simp only [clientStep, setSessionToken]
    split
    · exact hTok w t
    · exact KeepsSslPolicy_of_eq _ _ rfl rfl
  | registerObjectFactory f => exact KeepsSslPolicy_of_eq _ _ rfl rfl
  | unregisterObjectFactory i => exact KeepsSslPolicy_of_eq _ _ rfl rfl
  | createObject t i => exact KeepsSslPolicy_of_eq _ _ rfl rfl
  | query q a => exact KeepsSslPolicy_replies _ _ _ (hQ w q a)
  | create o a =>
    simp only [clientStep, create]
    split
    · exact KeepsSslPolicy_of_eq _ _ rfl rfl
    · exact KeepsSslPolicy_replies _ _ _ (hC w o a)
  | update o a =>
    simp only [clientStep, update]
    split
    · exact KeepsSslPolicy_of_eq _ _ rfl rfl
    · exact KeepsSslPolicy_replies _ _ _ (hU w o a)
  | remove o a =>
    simp only [clientStep, remove]
    split
    · exact KeepsSslPolicy_of_eq _ _ rfl rfl
    · exact KeepsSslPolicy_replies _ _ _ (hR w o a)
  | setIdentity i =>
    simp only [clientStep, setIdentity]
    split
    · exact KeepsSslPolicy_of_eq _ _ rfl rfl
    · exact hId w i
  | uploadFile o f =>
    simp only [clientStep, uploadFile]
    split
    · exact KeepsSslPolicy_of_eq _ _ rfl rfl
    · exact KeepsSslPolicy_replies _ _ _ (hF w o f)

theorem SslPolicyInv_step (p : PrivateMembers)
    (dQuery : World → QJsonObject → Area → World × Nat)
    (hp : PrivateMembersKeepSslPolicy p dQuery) (w : World) (history : List ClientCall)
    (c : ClientCall) (h : SslPolicyInv w history) :
    SslPolicyInv (clientStep p dQuery w c) (history ++ [c]) := by
  obtain ⟨h1, h2⟩ := h
  have extend : (∃ pre post, history
        = pre ++ ClientCall.setApiUrl "https://api.staging.engin.io" :: post) →
      ∃ pre post, history ++ [c]
        = pre ++ ClientCall.setApiUrl "https://api.staging.engin.io" :: post := by
    rintro ⟨pre, post, e⟩
    exact ⟨pre, post ++ [c], by simp [e]⟩
  by_cases hc : ∃ u, c = ClientCall.setApiUrl u
  · obtain ⟨u, rfl⟩ := hc
    simp only [clientStep, setApiUrl]
    split
    · refine ⟨?_, fun hs => extend (h2 hs)⟩
      intro hu
      simp only at hu
      exact ⟨history, [], by rw [hu]⟩
    · exact ⟨fun hu => extend (h1 hu), fun hs => extend (h2 hs)⟩
  · have hk := clientStep_keeps p dQuery hp w c (fun u e => hc ⟨u, e⟩)
    obtain ⟨k1, k2⟩ := hk
    refine ⟨fun hu => extend (h1 (k1 ▸ hu)), ?_⟩
    intro hs
    rcases k2 hs with hs | hu
    · exact extend (h2 hs)
    · exact extend (h1 hu)

theorem SslPolicyInv_run (p : PrivateMembers)
    (dQuery : World → QJsonObject → Area → World × Nat)
    (hp : PrivateMembersKeepSslPolicy p dQuery) (calls : List ClientCall) (w : World)
    (history : List ClientCall) (h : SslPolicyInv w history) :
    SslPolicyInv (clientRun p dQuery w calls) (history ++ calls) := by
  induction calls generalizing w history with
  | nil => simpa [clientRun] using h
  | cons c cs ih =>
    have := ih (clientStep p dQuery w c) (history ++ [c])
      (SslPolicyInv_step p dQuery hp w history c h)
    simpa [clientRun] using this

theorem SslPolicyInv_construct (n0 : Int) : SslPolicyInv (construct n0) [] := by
  refine ⟨?_, ?_⟩
  · intro h
    have : (construct n0).d.m_apiUrl = "https://api.engin.io" := rfl
    rw [this] at h
    exact absurd h (by decide)
  · intro h
    have : sslErrorsIgnored (construct n0) = false := rfl
    rw [this] at h
    cases h

/-- C11: on a client whose operations never set the API URL to anything but
the production URL, the handler `ignoreSslErrors` is attached to no manager;
and whenever it is attached after a sequence of operations, that sequence
contains a `setApiUrl` of the staging URL, which is not the production URL.
The private members taken as parameters are assumed to keep to the same
policy. -/
theorem sslErrors_ignored_only_after_staging_url (p : PrivateMembers)
    (dQuery : World → QJsonObject → Area → World × Nat)
    (hp : PrivateMembersKeepSslPolicy p dQuery) (n0 : Int) (calls : List ClientCall) :
    ((∀ c ∈ calls, c.setsOtherApiUrl = false) →
      sslErrorsIgnored (clientRun p dQuery (construct n0) calls) = false) ∧
    (sslErrorsIgnored (clientRun p dQuery (construct n0) calls) = true →
      ∃ pre post,
        calls = pre ++ ClientCall.setApiUrl "https://api.staging.engin.io" :: post ∧
        (ClientCall.setApiUrl "https://api.staging.engin.io").setsOtherApiUrl = true) := by
  have hinv := SslPolicyInv_run p dQuery hp calls (construct n0) []
    (SslPolicyInv_construct n0)
  simp only [List.nil_append] at hinv
  refine ⟨?_, ?_⟩
  · intro hall
    by_contra hne
    simp only [Bool.not_eq_false] at hne
    obtain ⟨pre, post, e⟩ := hinv.2 hne
    have := hall (ClientCall.setApiUrl "https://api.staging.engin.io") (by simp [e])
    revert this
    decide
  · intro hs
    obtain ⟨pre, post, e⟩ := hinv.2 hs
    exact ⟨pre, post, e, by decide⟩

theorem samplePrivateMembers_keep :
    PrivateMembersKeepSslPolicy samplePrivateMembers sampleQuery :=
  ⟨fun _ _ => KeepsSslPolicy_of_eq _ _ rfl rfl, fun _ _ => KeepsSslPolicy_of_eq _ _ rfl rfl,
   fun _ _ _ => KeepsSslPolicy_of_eq _ _ rfl rfl, fun _ _ _ => KeepsSslPolicy_of_eq _ _ rfl rfl,
   fun _ _ _ => KeepsSslPolicy_of_eq _ _ rfl rfl, fun _ _ _ => KeepsSslPolicy_of_eq _ _ rfl rfl,
   fun _ _ _ => KeepsSslPolicy_of_eq _ _ rfl rfl⟩

/-- Witness for C11: with the API URL left at the production URL, creating a
manager, dropping it and creating another attaches no SSL handler; whereas
after `setApiUrl` of the staging URL `networkManager()` does attach it. -/
theorem sslErrors_ignored_only_after_staging_url_witness :
    sslErrorsIgnored (clientRun samplePrivateMembers sampleQuery (construct 0)
      [ClientCall.setApiUrl "https://api.engin.io", ClientCall.networkManager,
       ClientCall.create [("title", QJsonValue.string "X")] 0,
       ClientCall.setNetworkManager none, ClientCall.networkManager]) = false ∧
    sslErrorsIgnored (clientRun samplePrivateMembers sampleQuery (construct 0)
      [ClientCall.setApiUrl "https://api.staging.engin.io", ClientCall.networkManager])
      = true :=
  ⟨(sslErrors_ignored_only_after_staging_url samplePrivateMembers sampleQuery
      samplePrivateMembers_keep 0
      [ClientCall.setApiUrl "https://api.engin.io", ClientCall.networkManager,
       ClientCall.create [("title", QJsonValue.string "X")] 0,
       ClientCall.setNetworkManager none, ClientCall.networkManager]).1
      (by
        intro c hc
        simp only [List.mem_cons, List.mem_singleton, List.not_mem_nil, or_false] at hc
        rcases hc with rfl | rfl | rfl | rfl | rfl <;> rfl),
   by decide⟩

/-! ## Theorems: ownership of the network manager -/

theorem OwnershipInv_construct (n0 : Int) : OwnershipInv (construct n0) := by
  refine ⟨?_, ?_, ?_⟩
  · intro m hm
    cases hm
  · intro m hm
    cases hm
  · intro k hk
    exact absurd hk (Nat.not_lt_zero k)

theorem networkManager_fields_of_null (w : World) (hm : w.d.m_networkManager = none) :
    (networkManager w).1.d.m_networkManager
      = some (QNetworkAccessManager.lazilyCreated w.allocated) ∧
    (networkManager w).1.d.m_deleteNetworkManager = true ∧
    (networkManager w).1.destroyed = w.destroyed ∧
    (networkManager w).1.allocated = w.allocated + 1 := by
  unfold networkManager
  by_cases hs : w.d.m_apiUrl = "https://api.staging.engin.io" <;> simp [hm, connect, hs]

theorem OwnershipInv_networkManager (w : World) (h : OwnershipInv w) :
    OwnershipInv (networkManager w).1 := by
  obtain ⟨h1, h2, h3⟩ := h
  cases hm : w.d.m_networkManager with
  | some m =>
    have e : (networkManager w).1 = w := by simp [networkManager, hm]
    rw [e]
    exact ⟨h1, h2, h3⟩
  | none =>
    obtain ⟨f1, f2, f3, f4⟩ := networkManager_fields_of_null w hm
    refine ⟨?_, ?_, ?_⟩
    · intro m hcur
      rw [f1] at hcur
      simp only [Option.some.injEq] at hcur
      subst hcur
      simp [f2, QNetworkAccessManager.isLazilyCreated]
    · intro m hmem
      rw [f3] at hmem
      exact h2 m hmem
    · intro k hk
      rw [f4] at hk
      rw [f1, f3]
      by_cases hkk : k = w.allocated
      · left
        rw [hkk]
      · right
        have hlt : k < w.allocated := by omega
        rcases h3 k hlt with hcur | hdes
        · rw [hm] at hcur
          cases hcur
        · exact hdes

theorem setNetworkManager_destroyed (w : World) (m1 : Option QNetworkAccessManager) :
    (setNetworkManager w m1).destroyed
      = match w.d.m_deleteNetworkManager, w.d.m_networkManager with
        | true, some m => m :: w.destroyed
        | _, _ => w.destroyed := by
  unfold setNetworkManager
  cases w.d.m_deleteNetworkManager <;> cases w.d.m_networkManager <;> cases m1 <;>
    simp [connect, deleteManager]

theorem setNetworkManager_fields (w : World) (m1 : Option QNetworkAccessManager) :
    (setNetworkManager w m1).d.m_networkManager = m1 ∧
    (setNetworkManager w m1).d.m_deleteNetworkManager = false ∧
    (setNetworkManager w m1).allocated = w.allocated := by
  unfold setNetworkManager
  cases w.d.m_deleteNetworkManager <;> cases w.d.m_networkManager <;> cases m1 <;>
    simp [connect, deleteManager]

theorem OwnershipInv_setNetworkManager (w : World) (m1 : Option QNetworkAccessManager)
    (hm1 : (NetworkCall.setNetworkManager m1).suppliesOwnManager = false)
    (h : OwnershipInv w) : OwnershipInv (setNetworkManager w m1) := by
  obtain ⟨h1, h2, h3⟩ := h
  obtain ⟨f1, f2, f3⟩ := setNetworkManager_fields w m1
  have hdes := setNetworkManager_destroyed w m1
  refine ⟨?_, ?_, ?_⟩
  · intro m hcur
    rw [f1] at hcur
    subst hcur
    rw [f2]
    simp only [NetworkCall.suppliesOwnManager] at hm1
    simp [hm1]
  · intro m hmem
    rw [hdes] at hmem
    cases hf : w.d.m_deleteNetworkManager <;> cases hcur : w.d.m_networkManager <;>
      simp only [hf, hcur] at hmem
    · exact h2 m hmem
    · exact h2 m hmem
    · exact h2 m hmem
    · rcases List.mem_cons.1 hmem with rfl | hmem
      · exact (h1 _ hcur).1 hf
      · exact h2 m hmem
  · intro k hk
    rw [f3] at hk
    right
    rw [hdes]
    rcases h3 k hk with hcur | hmem
    · have hf := (h1 _ hcur).2 rfl
      simp [hf, hcur]
    · cases hf : w.d.m_deleteNetworkManager <;> cases hcur : w.d.m_networkManager <;>
        simp [hmem]

theorem OwnershipInv_run (calls : List NetworkCall) (w : World)
    (hcalls : ∀ c ∈ calls, c.suppliesOwnManager = false) (h : OwnershipInv w) :
    OwnershipInv (networkRun w calls) := by
  induction calls generalizing w with
  | nil => exact h
  | cons c cs ih =>
    refine ih _ (fun c1 hc1 => hcalls c1 (by simp [hc1])) ?_
    have hc := hcalls c (by simp)
    cases c with
    | networkManager => exact OwnershipInv_networkManager w h
    | setNetworkManager m1 => exact OwnershipInv_setNetworkManager w m1 hc h

theorem destruct_destroyed (w : World) :
    (destruct w).destroyed
      = match w.d.m_deleteNetworkManager, w.d.m_networkManager with
        | true, some m => m :: w.destroyed
        | _, _ => w.destroyed := by
  unfold destruct
  cases w.d.m_deleteNetworkManager <;> cases w.d.m_networkManager <;> simp [deleteManager]

/-- As long as the caller hands over only managers of its own (or null), the
flag `m_deleteNetworkManager` is set exactly when the current manager was
allocated by the client; replacement and destruction destroy the current
manager exactly in that case; and every manager the client allocated is
destroyed at the latest with the client. -/
theorem ownership_matches_for_caller_allocated_managers (n0 : Int)
    (calls : List NetworkCall) (hcalls : ∀ c ∈ calls, c.suppliesOwnManager = false) :
    (∀ m, (networkRun (construct n0) calls).d.m_networkManager = some m →
      ((networkRun (construct n0) calls).d.m_deleteNetworkManager = true ↔
        m.isLazilyCreated = true)) ∧
    (∀ m m1, (networkRun (construct n0) calls).d.m_networkManager = some m →
      (setNetworkManager (networkRun (construct n0) calls) m1).destroyed
        = (if m.isLazilyCreated then m :: (networkRun (construct n0) calls).destroyed
            else (networkRun (construct n0) calls).destroyed) ∧
      (destruct (networkRun (construct n0) calls)).destroyed
        = (if m.isLazilyCreated then m :: (networkRun (construct n0) calls).destroyed
            else (networkRun (construct n0) calls).destroyed)) ∧
    (∀ m ∈ (destruct (networkRun (construct n0) calls)).destroyed,
      m.isLazilyCreated = true) ∧
    (∀ k, k < (networkRun (construct n0) calls).allocated →
      QNetworkAccessManager.lazilyCreated k
        ∈ (destruct (networkRun (construct n0) calls)).destroyed) := by
  have hinv := OwnershipInv_run calls (construct n0) hcalls (OwnershipInv_construct n0)
  generalize networkRun (construct n0) calls = w at hinv ⊢
  obtain ⟨h1, h2, h3⟩ := hinv
  refine ⟨h1, ?_, ?_, ?_⟩
  · intro m m1 hcur
    rw [setNetworkManager_destroyed, destruct_destroyed]
    cases hl : m.isLazilyCreated
    · have hf : w.d.m_deleteNetworkManager = false := by
        cases hf : w.d.m_deleteNetworkManager
        · rfl
        · rw [(h1 m hcur).1 hf] at hl
          cases hl
      simp [hf, hcur]
    · have hf := (h1 m hcur).2 hl
      simp [hf, hcur]
  · intro m hmem
    rw [destruct_destroyed] at hmem
    cases hf : w.d.m_deleteNetworkManager <;> cases hcur : w.d.m_networkManager <;>
      simp only [hf, hcur] at hmem
    · exact h2 m hmem
    · exact h2 m hmem
    · exact h2 m hmem
    · rcases List.mem_cons.1 hmem with rfl | hmem
      · exact (h1 _ hcur).1 hf
      · exact h2 m hmem
  · intro k hk
    rw [destruct_destroyed]
    rcases h3 k hk with hcur | hmem
    · have hf := (h1 _ hcur).2 rfl
      simp [hf, hcur]
    · cases hf : w.d.m_deleteNetworkManager <;> cases hcur : w.d.m_networkManager <;>
        simp [hmem]

/-- C12 (defect): `setNetworkManager` has no guard against being handed the
manager the client holds already.  After `networkManager()` has created a
manager, handing that manager to `setNetworkManager` destroys it, keeps the
pointer to it as the current manager and clears the flag: the manager
supplied by the caller is destroyed by the client, and the flag says
"borrowed" of a manager the client allocated.  A manager of the caller is
kept through the same two calls. -/
theorem setNetworkManager_destroys_manager_handed_back :
    (networkManager (construct 0)).2 = some (QNetworkAccessManager.lazilyCreated 0) ∧
    (networkRun (construct 0)
      [NetworkCall.networkManager,
       NetworkCall.setNetworkManager (some (QNetworkAccessManager.lazilyCreated 0))]
      ).destroyed = [QNetworkAccessManager.lazilyCreated 0] ∧
    (networkRun (construct 0)
      [NetworkCall.networkManager,
       NetworkCall.setNetworkManager (some (QNetworkAccessManager.lazilyCreated 0))]
      ).d.m_networkManager = some (QNetworkAccessManager.lazilyCreated 0) ∧
    (networkRun (construct 0)
      [NetworkCall.networkManager,
       NetworkCall.setNetworkManager (some (QNetworkAccessManager.lazilyCreated 0))]
      ).d.m_deleteNetworkManager = false ∧
    (destruct (networkRun (construct 0)
      [NetworkCall.setNetworkManager (some (QNetworkAccessManager.external 1)),
       NetworkCall.setNetworkManager (some (QNetworkAccessManager.external 1))])
      ).destroyed = [] := by
  decide

end Enginio
